import Mathlib

/-!
# Verification of `check_rec_gov.py` (recreation-gov campsite checker)

Shallow embedding of the availability reducer of `src/check_rec_gov.py`:

* `consecutive_nights`  — the range compactor (source lines 159-195);
* `get_num_available_sites` — the site counter (source lines 110-156);
* `get_park_information` — the monthly-record aggregator (source lines 30-107);
* `getOutputData` — the output-building step (source lines 296-323).

Calendar dates are represented by their proleptic-Gregorian day ordinals
(`Int`).  The Python code parses ISO date strings with
`datetime.strptime(...).toordinal()` and formats ordinals back with
`formatter.format_date` (both live in `utils`/`enums` modules that are not
part of the source tree); per the spec the string-to-ordinal map is a
strictly monotonic, gap-free bijection, so parsing and formatting are
modelled as the identity on ordinals.
-/

namespace RecGov

/-- Splits a list of ordinals into the maximal runs produced by the Python
idiom `groupby(ordinal_dates, lambda x: x - next(c))` (source lines 173-177):
element `i` gets key `x_i - i`, so a new group starts exactly when the next
element is not the previous plus one. -/
def splitRuns : List Int → List (List Int)
  | [] => []
  | x :: xs =>
    match splitRuns xs with
    | [] => [[x]]
    | [] :: rest => [x] :: rest
    | (y :: ys) :: rest =>
      if y = x + 1 then (x :: y :: ys) :: rest else [x] :: (y :: ys) :: rest

/-- The per-run sliding-window emission of `consecutive_nights`
(source lines 180-193): a run shorter than `nights` is skipped, otherwise
for every start index `0 .. len r - nights` the pair
`(r[i], r[i + nights - 1] + 1)` is emitted. -/
def windows (r : List Int) (nights : Nat) : List (Int × Int) :=
  if r.length < nights then []
  else (List.range (r.length - nights + 1)).map
    (fun i => (r.getD i 0, r.getD (i + nights - 1) 0 + 1))

/-- `consecutive_nights(available, nights)` (source lines 159-195), with date
strings replaced by their day ordinals: group the input (in input order)
into maximal consecutive runs, then emit every window of `nights`
consecutive nights together with its checkout ordinal. -/
def consecutive_nights (available : List Int) (nights : Nat) : List (Int × Int) :=
  ((splitRuns available).map (fun r => windows r nights)).flatten

/-- `[a, a+1, ..., a+L-1]`: a gap-free run of `L` consecutive ordinals. -/
def runList (a : Int) (L : Nat) : List Int :=
  (List.range L).map (fun (i : Nat) => a + (i : Int))

/-- The range compactor as §4.2 step 1 of the spec describes it, for
comparison with `consecutive_nights`: first sort the ordinals ascending and
collapse duplicates, then detect runs. -/
def consecutive_nights_sortfirst (available : List Int) (nights : Nat) : List (Int × Int) :=
  consecutive_nights (List.insertionSort (· ≤ ·) available.dedup) nights

/-! ## Site counter (`get_num_available_sites`, source lines 110-156) -/

/-- The queried-window date set built at source lines 116-123:
`{end_date - timedelta(days=i) for i in range(1, num_days + 1)}` with
`num_days = (end_date - start_date).days`, as a list of ordinals. -/
def windowDates (start_date end_date : Int) : List Int :=
  (List.range (end_date - start_date).toNat).map
    (fun (i : Nat) => end_date - ((i : Int) + 1))

/-- The clamping of `nights` at source lines 125-127: a caller value outside
`range(1, num_days + 1)` (including `None`) is replaced by `num_days`. -/
def clampNights (nights : Option Int) (num_days : Nat) : Nat :=
  match nights with
  | some n => if 1 ≤ n ∧ n ≤ (num_days : Int) then n.toNat else num_days
  | none => num_days

/-- The per-site body of the loop at source lines 130-144: keep only the
availability dates that fall in the window (`desired_available`), skip the
site when none remain, otherwise run the compactor.  (For an empty
`desired_available` the compactor would also return `[]`, so the skip is
observationally the `continue` of line 139-140.) -/
def siteRanges (availabilities : List Int) (dates : List Int) (nightsC : Nat) :
    List (Int × Int) :=
  let desired_available := availabilities.filter (fun d => dates.contains d)
  if desired_available.isEmpty then [] else consecutive_nights desired_available nightsC

/-- The site counter after `nights` has been clamped: `maximum` is the map
size (line 113), a site contributes to `num_available` and to the returned
mapping exactly when its compacted range list is nonempty (lines 146-154),
in iteration order. -/
def get_num_available_sites_core (park_information : List (Nat × List Int))
    (start_date end_date : Int) (nightsC : Nat) :
    Nat × Nat × List (Nat × List (Int × Int)) :=
  let dates := windowDates start_date end_date
  let entries := park_information.map
    (fun p => (p.1, siteRanges p.2 dates nightsC))
  let avail := entries.filter (fun p => !p.2.isEmpty)
  (avail.length, park_information.length, avail)

/-- `get_num_available_sites(park_information, start_date, end_date, nights)`
(source lines 110-156): returns `(num_available, maximum,
available_dates_by_campsite_id)`.  Site keys are already `Nat`
(the code's `int(site)` conversion), dates are ordinals. -/
def get_num_available_sites (park_information : List (Nat × List Int))
    (start_date end_date : Int) (nights : Option Int) :
    Nat × Nat × List (Nat × List (Int × Int)) :=
  get_num_available_sites_core park_information start_date end_date
    (clampNights nights (end_date - start_date).toNat)

/-! ## Aggregator (`get_park_information`, source lines 30-107)

The HTTP fetch loop (lines 55-64) is I/O glue: the list of monthly records
is taken as input.  The metadata sidecar `data2` (lines 69, 77-82) carries
no availability dates and none of the claims depend on it, so only the
availability mapping `data` is modelled here; the renderer's metadata enters
separately as `SiteInfo` below. -/

/-- One campsite's entry of one monthly API record: the `campsite_id` field,
the `campsite_type` field, and the `availabilities` mapping from date
(ordinal) to status string. -/
structure CampsiteData where
  campsite_id : Nat
  campsite_type : String
  availabilities : List (Int × String)
deriving DecidableEq

/-- One month's `month_data["campsites"]` dict: campsite id key paired with
the campsite's record. -/
abbrev MonthRecord := List (Nat × CampsiteData)

/-- The filtering of one campsite's availabilities at source lines 84-100:
keep a date iff its status is `"Available"`, the optional campsite-type
filter does not exclude the site, and the optional site-id allow-list does
not exclude it.  `none` for `campsite_type` models the falsy values
(`None`, `""`) of the Python truthiness test on line 89. -/
def filterAvail (cd : CampsiteData) (campsite_type : Option String)
    (campsite_ids : List Nat) : List Int :=
  cd.availabilities.filterMap (fun q =>
    if q.2 != "Available" then none
    else if (match campsite_type with
             | some t => t != cd.campsite_type
             | none => false) then none
    else if campsite_ids.length > 0 && !(campsite_ids.contains cd.campsite_id) then none
    else some q.1)

/-- Dict lookup on an association list with `Nat` keys. -/
def lookupSite {α : Type} (data : List (Nat × α)) (cid : Nat) : Option α :=
  (data.find? (fun q => q.1 == cid)).map Prod.snd

/-- The dict update of source lines 75 and 101-102:
`a = data.setdefault(campsite_id, [])` followed by `if available: a += available`
(appending to `a` in place extends the stored list; `l ++ [] = l` makes the
truthiness guard observationally irrelevant). -/
def updateSite (data : List (Nat × List Int)) (cid : Nat) (avail : List Int) :
    List (Nat × List Int) :=
  if data.any (fun q => q.1 == cid) then
    data.map (fun q => if q.1 == cid then (q.1, q.2 ++ avail) else q)
  else data ++ [(cid, avail)]

/-- Processing of one monthly record by the loop at source lines 71-102
(availability part). -/
def monthStep (ct : Option String) (ids : List Nat)
    (data : List (Nat × List Int)) (m : MonthRecord) : List (Nat × List Int) :=
  m.foldl (fun d q => updateSite d q.1 (filterAvail q.2 ct ids)) data

/-- `get_park_information` (source lines 30-107), availability output `data`:
fold the monthly records, in fetch order, into one per-site date mapping. -/
def get_park_information (months : List MonthRecord) (ct : Option String)
    (ids : List Nat) : List (Nat × List Int) :=
  months.foldl (monthStep ct ids) []

/-- The dates of one campsite record whose status is `"Available"`, with no
filters applied (lines 84-86, 100): skip a date iff its status differs from
`"Available"`. -/
def availableDates (cd : CampsiteData) : List Int :=
  cd.availabilities.filterMap (fun q => if q.2 != "Available" then none else some q.1)

/-- All Available dates that a given site id contributes from the entries of
one monthly record, under the given filters, in record order. -/
def recordAvail (m : MonthRecord) (cid : Nat) (ct : Option String)
    (ids : List Nat) : List Int :=
  ((m.filter (fun q => q.1 == cid)).map (fun q => filterAvail q.2 ct ids)).flatten

/-! ## Output building (`getOutputData`, source lines 296-323) -/

/-- One site's metadata dict as the renderer sees it; `none` models a
missing key (the code substitutes `"na"`).  `max_num_people` is a number in
the JSON but only ever compared/printed, so it is carried as a string. -/
structure SiteInfo where
  site : Option String
  loop : Option String
  max_num_people : Option String
  capacity_rating : Option String
  campsite_type : Option String
deriving DecidableEq

/-- The per-park tuple stored in `info_by_park_id` (source line 300):
`current, maximum, available_dates_by_site_id, park_name, info_by_site_id`. -/
structure ParkInfo where
  current : Nat
  maximum : Nat
  available_dates_by_site_id : List (Nat × List (Int × Int))
  park_name : String
  info_by_site_id : List (Nat × SiteInfo)
deriving DecidableEq

/-- One entry of `campgroundData['available_sites']` (source lines 310-315). -/
structure SiteData where
  site_id : Nat
  site : String
  loop : String
  max_num_people : String
  capacity_rating : String
  campsite_type : String
deriving DecidableEq

/-- `campgroundData` (source lines 301-307). -/
structure CampgroundData where
  park_id : String
  park_name : String
  total_sites_count : Nat
  available_sites_count : Nat
  available_sites : List SiteData
deriving DecidableEq

/-- `getSiteInformation` (source lines 277-281).  The Python raises
`KeyError` on a missing site id; the model totalises with an all-missing
record, a path no claim exercises. -/
def getSiteInformation (info_by_site_id : List (Nat × SiteInfo)) (site_id : Nat) :
    SiteInfo :=
  (lookupSite info_by_site_id site_id).getD ⟨none, none, none, none, none⟩

/-- Building one `siteData` dict (source lines 309-315): copy the metadata
fields, substituting `"na"` for a missing key. -/
def buildSiteData (info_by_site_id : List (Nat × SiteInfo)) (site_id : Nat) :
    SiteData :=
  let site_info := getSiteInformation info_by_site_id site_id
  { site_id := site_id
    site := site_info.site.getD "na"
    loop := site_info.loop.getD "na"
    max_num_people := site_info.max_num_people.getD "na"
    capacity_rating := site_info.capacity_rating.getD "na"
    campsite_type := site_info.campsite_type.getD "na" }

/-- Python's `str.lower()` on the character data (the metadata here is
ASCII, where per-character lowering is exact). -/
def strLower (s : String) : String := ⟨s.data.map Char.toLower⟩

/-- The sort key of source line 317: `(k['loop'].lower(), k['site'])`
compared as Python compares tuples of strings — lexicographically on the
pair, code-point lexicographically within a string. -/
def siteKeyLe (a b : SiteData) : Prop :=
  strLower a.loop < strLower b.loop ∨
    (strLower a.loop = strLower b.loop ∧ a.site ≤ b.site)

instance instDecSiteKeyLe : DecidableRel siteKeyLe := fun a b =>
  decidable_of_iff
    ((strLower a.loop).data < (strLower b.loop).data ∨
      ((strLower a.loop).data = (strLower b.loop).data ∧
        (a.site).data ≤ (b.site).data))
    (by
      unfold siteKeyLe
      rw [String.lt_iff_toList_lt, String.le_iff_toList_le,
        show ∀ s t : String, s.data = t.data ↔ s = t from fun s t =>
          ⟨fun h => by cases s; cases t; exact congrArg String.mk h, fun h => by rw [h]⟩]
      exact Iff.rfl)

/-- `getOutputData` (source lines 296-323): one `campgroundData` per park in
input (dict-iteration) order; each park's `available_sites` is sorted by
`(loop.lower(), site)` (line 317 — Python's `sorted` modelled by the stable
`insertionSort`); the outer list is NOT sorted (line 321 is a comment:
`# need to sort outputData based on campground_name`). -/
def getOutputData (info_by_park_id : List (String × ParkInfo)) :
    List CampgroundData :=
  info_by_park_id.map (fun q =>
    let info := q.2
    let sites := info.available_dates_by_site_id.map
      (fun sq => buildSiteData info.info_by_site_id sq.1)
    { park_id := q.1
      park_name := info.park_name
      total_sites_count := info.maximum
      available_sites_count := info.current
      available_sites := List.insertionSort siteKeyLe sites })

/-! ## Run-structure lemmas -/

theorem runList_zero (a : Int) : runList a 0 = [] := rfl

theorem runList_length (a : Int) (L : Nat) : (runList a L).length = L := by
  unfold runList
  rw [List.length_map, List.length_range]

theorem runList_succ (a : Int) (L : Nat) : runList a (L + 1) = a :: runList (a + 1) L := by
  unfold runList
  rw [List.range_succ_eq_map]
  simp only [List.map_cons, List.map_map, Nat.cast_zero, add_zero]
  refine congrArg _ (List.map_congr_left fun i _ => ?_)
  simp only [Function.comp_apply]
  push_cast
  ring

theorem runList_one (a : Int) : runList a 1 = [a] := by
  rw [runList_succ, runList_zero]

theorem runList_getD {i L : Nat} (a : Int) (h : i < L) :
    (runList a L).getD i 0 = a + i := by
  unfold runList
  rw [List.getD_eq_getElem _ _ (by rw [List.length_map, List.length_range]; exact h)]
  simp

theorem mem_runList {d a : Int} {L : Nat} :
    d ∈ runList a L ↔ ∃ i : Nat, i < L ∧ a + (i : Int) = d := by
  simp only [runList, List.mem_map, List.mem_range]

theorem runList_append (a : Int) (K M : Nat) :
    runList a (K + M) = runList a K ++ runList (a + K) M := by
  unfold runList
  rw [List.range_add, List.map_append, List.map_map]
  refine congrArg _ (List.map_congr_left fun i _ => ?_)
  simp only [Function.comp_apply]
  push_cast
  ring

theorem splitRuns_flatten (xs : List Int) : (splitRuns xs).flatten = xs := by
  induction xs with
  | nil => rfl
  | cons x xs ih =>
    cases h : splitRuns xs with
    | nil =>
      rw [h] at ih
      simp only [List.flatten_nil] at ih
      simp [splitRuns, h, ← ih]
    | cons r rest =>
      rw [h] at ih
      cases r with
      | nil =>
        simp only [List.flatten_cons, List.nil_append] at ih
        simp [splitRuns, h, ih]
      | cons y ys =>
        simp only [splitRuns, h]
        split
        · simpa using ih
        · simpa using ih

theorem splitRuns_shape (xs : List Int) :
    ∀ r ∈ splitRuns xs, ∃ a L, 1 ≤ L ∧ r = runList a L := by
  induction xs with
  | nil => intro r hr; simp [splitRuns] at hr
  | cons x xs ih =>
    intro r hr
    cases h : splitRuns xs with
    | nil =>
      simp only [splitRuns, h, List.mem_singleton] at hr
      exact ⟨x, 1, le_refl 1, by rw [hr, runList_one]⟩
    | cons r0 rest =>
      have hsub : ∀ s ∈ rest, ∃ a L, 1 ≤ L ∧ s = runList a L := by
        intro s hs
        exact ih s (by rw [h]; exact List.mem_cons_of_mem _ hs)
      cases r0 with
      | nil =>
        simp only [splitRuns, h, List.mem_cons] at hr
        rcases hr with h1 | h2
        · exact ⟨x, 1, le_refl 1, by rw [h1, runList_one]⟩
        · exact hsub r h2
      | cons y ys =>
        obtain ⟨a, L, hL, heq⟩ := ih (y :: ys) (by rw [h]; exact List.mem_cons_self _ _)
        obtain ⟨L', rfl⟩ : ∃ L', L = L' + 1 := ⟨L - 1, by omega⟩
        rw [runList_succ] at heq
        obtain ⟨rfl, htail⟩ : y = a ∧ ys = runList (a + 1) L' :=
          ⟨((List.cons.injEq _ _ _ _).mp heq).1, ((List.cons.injEq _ _ _ _).mp heq).2⟩
        simp only [splitRuns, h] at hr
        by_cases hy : y = x + 1
        · rw [if_pos hy] at hr
          rcases List.mem_cons.mp hr with h1 | h2
          · refine ⟨x, L' + 2, by omega, ?_⟩
            rw [h1, runList_succ x (L' + 1), runList_succ (x + 1) L', ← hy, htail]
          · exact hsub r h2
        · rw [if_neg hy] at hr
          rcases List.mem_cons.mp hr with h1 | h2
          · exact ⟨x, 1, le_refl 1, by rw [h1, runList_one]⟩
          · rcases List.mem_cons.mp h2 with h3 | h4
            · exact ⟨y, L' + 1, by omega, by rw [h3, runList_succ, htail]⟩
            · exact hsub r h4

theorem splitRuns_runList (a : Int) (L : Nat) (h : 1 ≤ L) :
    splitRuns (runList a L) = [runList a L] := by
  obtain ⟨M, rfl⟩ : ∃ M, L = M + 1 := ⟨L - 1, by omega⟩
  clear h
  induction M generalizing a with
  | zero => rw [runList_one]; rfl
  | succ M ih =>
    rw [runList_succ]
    simp only [splitRuns]
    rw [ih (a + 1), runList_succ (a + 1) M]
    simp

/-! ## Compactor evaluation lemmas -/

theorem windows_runList (a : Int) (L nights : Nat) (h : 1 ≤ nights) :
    windows (runList a L) nights =
      if L < nights then []
      else (List.range (L - nights + 1)).map
        (fun (i : Nat) => (a + (i : Int), a + (i : Int) + (nights : Int))) := by
  unfold windows
  rw [runList_length]
  split
  · rfl
  · next hL =>
    refine List.map_congr_left fun i hi => ?_
    rw [List.mem_range] at hi
    have hi1 : i < L := by omega
    have hi2 : i + nights - 1 < L := by omega
    rw [runList_getD a hi1, runList_getD a hi2]
    refine Prod.ext rfl ?_
    show a + ((i + nights - 1 : Nat) : Int) + 1 = a + (i : Int) + (nights : Int)
    omega

theorem consecutive_nights_nil (nights : Nat) : consecutive_nights [] nights = [] := rfl

theorem consecutive_nights_runList (a : Int) (L nights : Nat) (h : 1 ≤ nights) :
    consecutive_nights (runList a L) nights =
      if L < nights then []
      else (List.range (L - nights + 1)).map
        (fun (i : Nat) => (a + (i : Int), a + (i : Int) + (nights : Int))) := by
  cases L with
  | zero =>
    rw [runList_zero, consecutive_nights_nil, if_pos (by omega)]
  | succ M =>
    unfold consecutive_nights
    rw [splitRuns_runList a (M + 1) (by omega)]
    simp only [List.map_cons, List.map_nil, List.flatten_cons, List.flatten_nil,
      List.append_nil]
    exact windows_runList a (M + 1) nights h

theorem consecutive_nights_mem {available : List Int} {nights : Nat} (h : 1 ≤ nights)
    {p : Int × Int} (hp : p ∈ consecutive_nights available nights) :
    p.2 = p.1 + (nights : Int) ∧ ∀ d : Int, p.1 ≤ d → d < p.2 → d ∈ available := by
  unfold consecutive_nights at hp
  rw [List.mem_flatten] at hp
  obtain ⟨w, hw, hpw⟩ := hp
  rw [List.mem_map] at hw
  obtain ⟨r, hr, rfl⟩ := hw
  obtain ⟨a, L, hL, rfl⟩ := splitRuns_shape available r hr
  rw [windows_runList a L nights h] at hpw
  split at hpw
  · simp at hpw
  · next hLn =>
    rw [List.mem_map] at hpw
    obtain ⟨i, hi, rfl⟩ := hpw
    rw [List.mem_range] at hi
    refine ⟨rfl, fun d hd1 hd2 => ?_⟩
    have hmem : d ∈ runList a L := by
      rw [mem_runList]
      refine ⟨(d - a).toNat, by omega, by omega⟩
    have := splitRuns_flatten available
    rw [← this, List.mem_flatten]
    exact ⟨runList a L, hr, hmem⟩

theorem flatten_map_sublist {α : Type} {L : List (List α)} {f : List α → List α}
    (hf : ∀ r ∈ L, (f r).Sublist r) : ((L.map f).flatten).Sublist L.flatten := by
  induction L with
  | nil => simp
  | cons r L ih =>
    simp only [List.map_cons, List.flatten_cons]
    exact List.Sublist.append (hf r (List.mem_cons_self _ _))
      (ih fun s hs => hf s (List.mem_cons_of_mem _ hs))

theorem windows_map_fst_runList (a : Int) (L nights : Nat) (h : 1 ≤ nights) :
    ((windows (runList a L) nights).map Prod.fst).Sublist (runList a L) := by
  rw [windows_runList a L nights h]
  split
  · simp
  · next hLn =>
    rw [List.map_map]
    have hmap : (List.range (L - nights + 1)).map
        (Prod.fst ∘ fun (i : Nat) => (a + (i : Int), a + (i : Int) + (nights : Int)))
        = runList a (L - nights + 1) := by
      unfold runList
      exact List.map_congr_left fun i _ => rfl
    rw [hmap]
    have hdecomp : runList a L = runList a (L - nights + 1) ++
        runList (a + ((L - nights + 1 : Nat) : Int)) (nights - 1) := by
      rw [← runList_append]
      congr 1
      omega
    rw [hdecomp]
    exact List.sublist_append_left _ _

theorem consecutive_nights_starts_sublist (available : List Int) (nights : Nat)
    (h : 1 ≤ nights) :
    ((consecutive_nights available nights).map Prod.fst).Sublist available := by
  unfold consecutive_nights
  rw [List.map_flatten, List.map_map]
  have : ((splitRuns available).map ((List.map Prod.fst) ∘ fun r => windows r nights))
      = (splitRuns available).map (fun r => (windows r nights).map Prod.fst) := rfl
  rw [this]
  have hsub : ((splitRuns available).map
      (fun r => (windows r nights).map Prod.fst)).flatten.Sublist
      (splitRuns available).flatten := by
    refine flatten_map_sublist fun r hr => ?_
    obtain ⟨a, L, hL, rfl⟩ := splitRuns_shape available r hr
    exact windows_map_fst_runList a L nights h
  rw [splitRuns_flatten] at hsub
  exact hsub

theorem consecutive_nights_starts_sorted (available : List Int) (nights : Nat)
    (h1 : 1 ≤ nights) (h2 : List.Sorted (· < ·) available) :
    List.Sorted (· < ·) ((consecutive_nights available nights).map Prod.fst) :=
  List.Pairwise.sublist (consecutive_nights_starts_sublist available nights h1) h2

/-! ## Claims C1-C4: the range compactor -/

/-- **C1**: for every maximal run of `L` consecutive available day-ordinals
and every minimum stay `nights ≥ 1`, the compactor discards the run when
`L < nights` and otherwise emits exactly `L - nights + 1` ranges, the range
at offset `i` starting at the ordinal at that offset and checking out
`nights` days later; a run of exactly `nights` days yields one range and a
run of `nights + k` days yields `k + 1` ranges. -/
theorem claim_C1_run_sliding_window (a : Int) (L nights : Nat) (h : 1 ≤ nights) :
    (L < nights → consecutive_nights (runList a L) nights = []) ∧
    (nights ≤ L → consecutive_nights (runList a L) nights =
      (List.range (L - nights + 1)).map
        (fun (i : Nat) => (a + (i : Int), a + (i : Int) + (nights : Int)))) ∧
    (consecutive_nights (runList a nights) nights).length = 1 ∧
    ∀ k : Nat, (consecutive_nights (runList a (nights + k)) nights).length = k + 1 := by
  refine ⟨?_, ?_, ?_, ?_⟩
  · intro hL; rw [consecutive_nights_runList a L nights h, if_pos hL]
  · intro hL; rw [consecutive_nights_runList a L nights h, if_neg (by omega)]
  · rw [consecutive_nights_runList a nights nights h, if_neg (by omega)]
    simp
  · intro k
    rw [consecutive_nights_runList a (nights + k) nights h, if_neg (by omega),
      List.length_map, List.length_range]
    omega

theorem claim_C1_witness :
    consecutive_nights (runList 10 3) 2 = [(10, 12), (11, 13)] := by
  rw [(claim_C1_run_sliding_window 10 3 2 (by decide)).2.1 (by decide)]
  decide

/-- **C2**: for every available-date set and every `nights ≥ 1`, every
emitted range spans exactly `nights` calendar days from start to checkout,
and each of those `nights` occupied days is a date of the input set. -/
theorem claim_C2_ranges_cover_available (available : List Int) (nights : Nat)
    (h : 1 ≤ nights) :
    ∀ p ∈ consecutive_nights available nights,
      p.2 - p.1 = (nights : Int) ∧ ∀ d : Int, p.1 ≤ d → d < p.2 → d ∈ available := by
  intro p hp
  obtain ⟨h1, h2⟩ := consecutive_nights_mem h hp
  exact ⟨by omega, h2⟩

theorem claim_C2_witness :
    ((1, 3) : Int × Int).2 - ((1, 3) : Int × Int).1 = ((2 : Nat) : Int) ∧
      (2 : Int) ∈ ([1, 2, 3] : List Int) := by
  have h := claim_C2_ranges_cover_available [1, 2, 3] 2 (by decide) (1, 3) (by decide)
  exact ⟨h.1, h.2 2 (by decide) (by decide)⟩

/-- **C3** (counterexample): the ranges emitted for one site are NOT
pairwise non-overlapping — successive sliding windows of one run share
nights (here nights 1-2 and 2-3 both contain night 2) — and for an input
that is not date-sorted the emitted ranges are not in ascending start
order either. -/
theorem claim_C3_counterexample :
    ¬ List.Pairwise (fun p q : Int × Int => p.2 ≤ q.1 ∨ q.2 ≤ p.1)
        (consecutive_nights [1, 2, 3] 2) ∧
    ¬ List.Sorted (fun p q : Int × Int => p.1 ≤ q.1) (consecutive_nights [5, 1] 1) := by
  constructor <;> decide

/-- **C3** (amended): for a strictly sorted input, the ranges are pairwise
distinct and their start dates strictly ascend; overlap of successive
windows is allowed (and does occur, see the counterexample). -/
theorem claim_C3_sorted_starts (available : List Int) (nights : Nat)
    (h1 : 1 ≤ nights) (h2 : List.Sorted (· < ·) available) :
    List.Sorted (· < ·) ((consecutive_nights available nights).map Prod.fst) ∧
    List.Pairwise (· ≠ ·) (consecutive_nights available nights) := by
  have hs := consecutive_nights_starts_sorted available nights h1 h2
  refine ⟨hs, ?_⟩
  rw [show List.Sorted (· < ·) ((consecutive_nights available nights).map Prod.fst) =
      List.Pairwise (· < ·) ((consecutive_nights available nights).map Prod.fst) from rfl,
    List.pairwise_map] at hs
  exact hs.imp fun hlt heq => (ne_of_lt hlt) (congrArg Prod.fst heq)

theorem claim_C3_witness :
    List.Sorted (· < ·) ((consecutive_nights [1, 2, 3] 2).map Prod.fst) :=
  (claim_C3_sorted_starts [1, 2, 3] 2 (by decide) (by decide)).1

/-- **C4** (counterexample): the compactor does NOT sort or deduplicate
its input: on `[2, 1]` it emits the two singleton runs in input order,
which differs from its output on the sorted duplicate-free version, and
on the duplicated input `[1, 1]` it emits the duplicated range twice
where the duplicate-collapsing version emits it once. -/
theorem claim_C4_counterexample :
    consecutive_nights [2, 1] 1 = [(2, 3), (1, 2)] ∧
    consecutive_nights_sortfirst [2, 1] 1 = [(1, 2), (2, 3)] ∧
    consecutive_nights [2, 1] 1 ≠ consecutive_nights_sortfirst [2, 1] 1 ∧
    consecutive_nights [1, 1] 1 = [(1, 2), (1, 2)] ∧
    consecutive_nights_sortfirst [1, 1] 1 = [(1, 2)] ∧
    consecutive_nights [1, 1] 1 ≠ consecutive_nights_sortfirst [1, 1] 1 := by
  exact ⟨by decide, by decide, by decide, by decide, by decide, by decide⟩

/-- **C4** (amended): the compactor converts dates to ordinals and detects
runs in input order, with no sorting or duplicate collapsing (the
counterexample shows both omissions observable); whenever the input is
already strictly ascending, its output agrees with the sort-first
behaviour the spec describes.  Sortedness is sufficient, not necessary:
the two can coincidentally agree on unsorted input, e.g. when every run
is shorter than `nights` both outputs are empty. -/
theorem claim_C4_sorted_input_agrees (available : List Int) (nights : Nat)
    (h : List.Sorted (· < ·) available) :
    consecutive_nights available nights = consecutive_nights_sortfirst available nights := by
  unfold consecutive_nights_sortfirst
  rw [List.dedup_eq_self.mpr h.nodup,
    List.Sorted.insertionSort_eq (h.imp fun hab => le_of_lt hab)]

theorem claim_C4_witness :
    consecutive_nights [1, 2] 1 = consecutive_nights_sortfirst [1, 2] 1 :=
  claim_C4_sorted_input_agrees [1, 2] 1 (by decide)

/-! ## Claims C5-C7: the site counter -/

theorem mem_windowDates {s e d : Int} :
    d ∈ windowDates s e ↔ s ≤ d ∧ d < e := by
  simp only [windowDates, List.mem_map, List.mem_range]
  constructor
  · rintro ⟨i, hi, rfl⟩; omega
  · intro hd
    exact ⟨(e - d - 1).toNat, by omega, by omega⟩

theorem contains_windowDates (s e d : Int) :
    (windowDates s e).contains d = decide (s ≤ d ∧ d < e) := by
  rw [show (windowDates s e).contains d = decide (d ∈ windowDates s e) from
    List.elem_eq_mem d (windowDates s e), decide_eq_decide]
  exact mem_windowDates

theorem siteRanges_eq_cn (av dates : List Int) (n : Nat) :
    siteRanges av dates n =
      consecutive_nights (av.filter (fun d => dates.contains d)) n := by
  simp only [siteRanges]
  split
  · next hE =>
    rw [List.isEmpty_iff] at hE
    rw [hE, consecutive_nights_nil]
  · rfl

theorem clampNights_pos (nights : Option Int) (D : Nat) (h : 1 ≤ D) :
    1 ≤ clampNights nights D := by
  cases nights with
  | none => exact h
  | some n =>
    simp only [clampNights]
    split
    · omega
    · exact h

/-- **C5**: the site counter filters each site's availability dates to the
queried window `[start_date, end_date)` before invoking the compactor, and
consequently every emitted range (its occupied nights and its checkout)
lies within the window. -/
theorem claim_C5_window_filter (park : List (Nat × List Int)) (s e : Int)
    (nights : Option Int) :
    (get_num_available_sites park s e nights).2.2 =
      (park.map (fun p => (p.1, consecutive_nights
          (p.2.filter (fun d => decide (s ≤ d ∧ d < e)))
          (clampNights nights (e - s).toNat)))).filter (fun p => !p.2.isEmpty) ∧
    ∀ q ∈ (get_num_available_sites park s e nights).2.2, ∀ p ∈ q.2,
      s ≤ p.1 ∧ p.2 ≤ e := by
  have hfilter : ∀ av : List Int,
      av.filter (fun d => (windowDates s e).contains d)
        = av.filter (fun d => decide (s ≤ d ∧ d < e)) :=
    fun av => List.filter_congr fun d _ => by rw [contains_windowDates]
  have hsr : ∀ av n, siteRanges av (windowDates s e) n
      = consecutive_nights (av.filter (fun d => decide (s ≤ d ∧ d < e))) n := by
    intro av n
    rw [siteRanges_eq_cn, hfilter av]
  have hmain : (get_num_available_sites park s e nights).2.2 =
      (park.map (fun p => (p.1, consecutive_nights
          (p.2.filter (fun d => decide (s ≤ d ∧ d < e)))
          (clampNights nights (e - s).toNat)))).filter (fun p => !p.2.isEmpty) := by
    show ((park.map (fun p => (p.1, siteRanges p.2 (windowDates s e)
        (clampNights nights (e - s).toNat)))).filter (fun p => !p.2.isEmpty)) = _
    rw [List.map_congr_left fun p _ => by rw [hsr p.2]]
  refine ⟨hmain, ?_⟩
  intro q hq p hp
  rw [hmain, List.mem_filter] at hq
  obtain ⟨hqm, hqne⟩ := hq
  rw [List.mem_map] at hqm
  obtain ⟨pr, hpr, rfl⟩ := hqm
  set nightsC := clampNights nights (e - s).toNat with hNC
  set desired := pr.2.filter (fun d => decide (s ≤ d ∧ d < e)) with hD
  have hne : desired ≠ [] := by
    intro h0
    rw [show (pr.1, consecutive_nights desired nightsC).2
        = consecutive_nights desired nightsC from rfl, h0, consecutive_nights_nil] at hp
    exact List.not_mem_nil p hp
  obtain ⟨d0, hd0⟩ := List.exists_mem_of_ne_nil desired hne
  have hd0w : s ≤ d0 ∧ d0 < e := by
    rw [hD, List.mem_filter] at hd0
    exact of_decide_eq_true hd0.2
  have hDpos : 1 ≤ (e - s).toNat := by omega
  have hNpos : 1 ≤ nightsC := clampNights_pos nights _ hDpos
  obtain ⟨heq, hcover⟩ := consecutive_nights_mem hNpos hp
  have hmemD : ∀ d : Int, d ∈ desired → s ≤ d ∧ d < e := by
    intro d hd
    rw [hD, List.mem_filter] at hd
    exact of_decide_eq_true hd.2
  have h1 : p.1 ∈ desired := hcover p.1 (le_refl _) (by omega)
  have h2 : p.2 - 1 ∈ desired := hcover (p.2 - 1) (by omega) (by omega)
  have hw1 := hmemD p.1 h1
  have hw2 := hmemD (p.2 - 1) h2
  exact ⟨hw1.1, by omega⟩

theorem claim_C5_witness : (10 : Int) ≤ 10 ∧ (12 : Int) ≤ 12 :=
  (claim_C5_window_filter [(1, [10, 11])] 10 12 none).2 (1, [(10, 12)]) (by decide)
    (10, 12) (by decide)

/-- **C6**: a caller-supplied `nights` outside `[1, num_days]` (or unset)
is silently replaced by `num_days = end_date - start_date`, never an
error; a value inside `[1, num_days]` is used unchanged. -/
theorem claim_C6_nights_clamped (park : List (Nat × List Int)) (s e : Int) (n : Int) :
    (¬ (1 ≤ n ∧ n ≤ (((e - s).toNat : Nat) : Int)) →
      get_num_available_sites park s e (some n) =
        get_num_available_sites_core park s e (e - s).toNat) ∧
    ((1 ≤ n ∧ n ≤ (((e - s).toNat : Nat) : Int)) →
      get_num_available_sites park s e (some n) =
        get_num_available_sites_core park s e n.toNat) ∧
    get_num_available_sites park s e none =
      get_num_available_sites_core park s e (e - s).toNat := by
  refine ⟨?_, ?_, rfl⟩
  · intro hn
    show get_num_available_sites_core park s e
      (if 1 ≤ n ∧ n ≤ (((e - s).toNat : Nat) : Int) then n.toNat else (e - s).toNat) = _
    rw [if_neg hn]
  · intro hn
    show get_num_available_sites_core park s e
      (if 1 ≤ n ∧ n ≤ (((e - s).toNat : Nat) : Int) then n.toNat else (e - s).toNat) = _
    rw [if_pos hn]

theorem claim_C6_witness :
    get_num_available_sites [(1, [10, 11])] 10 12 (some 5) =
      get_num_available_sites_core [(1, [10, 11])] 10 12 ((12 : Int) - 10).toNat :=
  (claim_C6_nights_clamped [(1, [10, 11])] 10 12 5).1 (by decide)

/-- **C7**: the site counter's `maximum` is the number of sites in the
mapping, its `current` counts the sites with at least one qualifying range
(once each), and a site with no qualifying range (in particular a fully
booked one) is absent from the returned range mapping; for the two-site
scenario the counter reports `current = 1`, `maximum = 2` with the booked
site absent. -/
theorem claim_C7_counts (park : List (Nat × List Int)) (s e : Int)
    (nights : Option Int) (hnd : (park.map Prod.fst).Nodup) :
    (get_num_available_sites park s e nights).2.1 = park.length ∧
    (get_num_available_sites park s e nights).1 =
      park.countP (fun p => !(siteRanges p.2 (windowDates s e)
        (clampNights nights (e - s).toNat)).isEmpty) ∧
    (∀ p ∈ park,
      siteRanges p.2 (windowDates s e) (clampNights nights (e - s).toNat) = [] →
      ∀ rs, (p.1, rs) ∉ (get_num_available_sites park s e nights).2.2) ∧
    get_num_available_sites [(1, [10, 11]), (2, [])] 10 12 none =
      (1, 2, [(1, [(10, 12)])]) := by
  refine ⟨rfl, ?_, ?_, by decide⟩
  · show ((park.map (fun p => (p.1, siteRanges p.2 (windowDates s e)
        (clampNights nights (e - s).toNat)))).filter (fun p => !p.2.isEmpty)).length = _
    rw [← List.countP_eq_length_filter, List.countP_map]
    rfl
  · intro p hp hempty rs hmem
    have hmem' : (p.1, rs) ∈ (park.map (fun p => (p.1, siteRanges p.2 (windowDates s e)
        (clampNights nights (e - s).toNat)))).filter (fun p => !p.2.isEmpty) := hmem
    rw [List.mem_filter] at hmem'
    obtain ⟨hm, hg⟩ := hmem'
    rw [List.mem_map] at hm
    obtain ⟨p', hp', heq⟩ := hm
    obtain ⟨hfst, hsnd⟩ := Prod.mk.inj heq
    have hpp : p' = p := List.inj_on_of_nodup_map hnd hp' hp hfst
    rw [hpp, hempty] at hsnd
    rw [← hsnd] at hg
    simp at hg

theorem claim_C7_witness :
    get_num_available_sites [(1, [10, 11]), (2, [])] 10 12 none =
      (1, 2, [(1, [(10, 12)])]) :=
  (claim_C7_counts [] 0 0 none (by decide)).2.2.2

/-! ## Aggregator lookup lemmas -/

theorem lookupSite_cons {α : Type} (q : Nat × α) (data : List (Nat × α)) (cid : Nat) :
    lookupSite (q :: data) cid = if q.1 == cid then some q.2 else lookupSite data cid := by
  cases h : (q.1 == cid) with
  | true => simp [lookupSite, List.find?, h]
  | false => simp [lookupSite, List.find?, h]

theorem lookupSite_map_update (data : List (Nat × List Int)) (c cid : Nat)
    (avail : List Int) :
    lookupSite (data.map (fun q => if q.1 == c then (q.1, q.2 ++ avail) else q)) cid =
      match lookupSite data cid with
      | some l => some (if cid == c then l ++ avail else l)
      | none => none := by
  induction data with
  | nil => rfl
  | cons q data ih =>
    rw [List.map_cons, lookupSite_cons, lookupSite_cons]
    have hfst : (if q.1 == c then (q.1, q.2 ++ avail) else q).1 = q.1 := by
      split <;> rfl
    have hsnd : (if q.1 == c then (q.1, q.2 ++ avail) else q).2 =
        if q.1 == c then q.2 ++ avail else q.2 := by
      split <;> rfl
    rw [hfst, hsnd]
    cases hqc : (q.1 == cid) with
    | true =>
      have : q.1 = cid := by simpa using hqc
      subst this
      simp
    | false =>
      simp only [Bool.false_eq_true, if_false]
      exact ih

theorem lookupSite_updateSite (data : List (Nat × List Int)) (c cid : Nat)
    (avail : List Int) :
    lookupSite (updateSite data c avail) cid =
      if cid = c then
        (match lookupSite data c with
         | some l => some (l ++ avail)
         | none => some avail)
      else lookupSite data cid := by
  unfold updateSite
  by_cases hpres : data.any (fun q => q.1 == c) = true
  · rw [if_pos hpres, lookupSite_map_update]
    by_cases hc : cid = c
    · subst hc
      obtain ⟨w, hw, hpw⟩ := List.any_eq_true.mp hpres
      obtain ⟨l, hl⟩ : ∃ l, lookupSite data cid = some l := by
        have : (data.find? (fun q => q.1 == cid)).isSome = true :=
          List.find?_isSome.mpr ⟨w, hw, hpw⟩
        obtain ⟨v, hv⟩ := Option.isSome_iff_exists.mp this
        exact ⟨v.2, by rw [lookupSite, hv]; rfl⟩
      rw [hl]
      simp
    · rw [if_neg hc]
      cases hl : lookupSite data cid with
      | none => rfl
      | some l =>
        have : (cid == c) = false := by simpa using hc
        simp [this]
  · rw [if_neg hpres]
    have hnone : data.find? (fun q => q.1 == c) = none := by
      rw [List.find?_eq_none]
      intro x hx
      intro hxc
      exact hpres (List.any_eq_true.mpr ⟨x, hx, hxc⟩)
    by_cases hc : cid = c
    · subst hc
      rw [if_pos rfl]
      unfold lookupSite
      rw [List.find?_append, hnone]
      simp [List.find?]
    · rw [if_neg hc]
      unfold lookupSite
      rw [List.find?_append]
      have hlast : ([(c, avail)].find? (fun q => q.1 == cid)) = none := by
        have : (c == cid) = false := by
          simp only [beq_eq_false_iff_ne, ne_eq]
          exact fun h => hc h.symm
        simp [List.find?, this]
      rw [hlast]
      cases hfd : data.find? (fun q => q.1 == cid) <;> rfl

theorem recordAvail_nil (cid : Nat) (ct : Option String) (ids : List Nat) :
    recordAvail [] cid ct ids = [] := rfl

theorem recordAvail_cons (q : Nat × CampsiteData) (m : MonthRecord) (cid : Nat)
    (ct : Option String) (ids : List Nat) :
    recordAvail (q :: m) cid ct ids =
      (if q.1 == cid then filterAvail q.2 ct ids else []) ++ recordAvail m cid ct ids := by
  unfold recordAvail
  rw [List.filter_cons]
  by_cases h : (q.1 == cid) = true
  · rw [if_pos h, if_pos h, List.map_cons, List.flatten_cons]
  · rw [if_neg h, if_neg h, List.nil_append]

theorem lookupSite_foldl_update (ct : Option String) (ids : List Nat)
    (es : List (Nat × CampsiteData)) (data : List (Nat × List Int)) (cid : Nat) :
    lookupSite (es.foldl (fun d q => updateSite d q.1 (filterAvail q.2 ct ids)) data) cid =
      match lookupSite data cid with
      | some l => some (l ++ recordAvail es cid ct ids)
      | none =>
        if es.any (fun q => q.1 == cid) then some (recordAvail es cid ct ids) else none := by
  induction es generalizing data with
  | nil =>
    cases h : lookupSite data cid with
    | none => simp [recordAvail_nil, h]
    | some l => simp [recordAvail_nil, h]
  | cons q es ih =>
    rw [List.foldl_cons, ih, lookupSite_updateSite, recordAvail_cons, List.any_cons]
    by_cases hq : cid = q.1
    · subst hq
      rw [if_pos rfl]
      cases hl : lookupSite data q.1 with
      | none => simp
      | some l => simp [List.append_assoc]
    · have hq' : (q.1 == cid) = false := by
        simp only [beq_eq_false_iff_ne, ne_eq]
        exact fun h => hq h.symm
      rw [if_neg hq, hq']
      cases hl : lookupSite data cid with
      | none => rfl
      | some l => simp

theorem foldl_monthStep_eq (ct : Option String) (ids : List Nat)
    (months : List MonthRecord) (data : List (Nat × List Int)) :
    months.foldl (monthStep ct ids) data =
      (months.flatten).foldl
        (fun d q => updateSite d q.1 (filterAvail q.2 ct ids)) data := by
  induction months generalizing data with
  | nil => rfl
  | cons m months ih =>
    rw [List.foldl_cons, ih, List.flatten_cons, List.foldl_append]
    rfl

theorem recordAvail_append (m1 m2 : MonthRecord) (cid : Nat) (ct : Option String)
    (ids : List Nat) :
    recordAvail (m1 ++ m2) cid ct ids =
      recordAvail m1 cid ct ids ++ recordAvail m2 cid ct ids := by
  unfold recordAvail
  rw [List.filter_append, List.map_append, List.flatten_append]

theorem recordAvail_flatten (months : List MonthRecord) (cid : Nat)
    (ct : Option String) (ids : List Nat) :
    recordAvail months.flatten cid ct ids =
      (months.map (fun m => recordAvail m cid ct ids)).flatten := by
  induction months with
  | nil => rfl
  | cons m months ih =>
    rw [List.flatten_cons, recordAvail_append, ih, List.map_cons, List.flatten_cons]

theorem any_flatten_key (months : List MonthRecord) (cid : Nat) :
    months.flatten.any (fun q => q.1 == cid)
      = months.any (fun m => m.any (fun q => q.1 == cid)) := by
  induction months with
  | nil => rfl
  | cons m months ih => rw [List.flatten_cons, List.any_append, List.any_cons, ih]

theorem get_park_information_lookup (months : List MonthRecord) (ct : Option String)
    (ids : List Nat) (cid : Nat) :
    lookupSite (get_park_information months ct ids) cid =
      if months.any (fun m => m.any (fun q => q.1 == cid)) then
        some ((months.map (fun m => recordAvail m cid ct ids)).flatten)
      else none := by
  unfold get_park_information
  rw [foldl_monthStep_eq, lookupSite_foldl_update, any_flatten_key, recordAvail_flatten]
  rfl

/-! ## Claims C8 and C10: the aggregator -/

theorem filterAvail_nofilter (cd : CampsiteData) :
    filterAvail cd none [] = availableDates cd := rfl

theorem filterAvail_excluded {ids : List Nat} (cd : CampsiteData) (ct : Option String)
    (hlen : 0 < ids.length) (hnot : cd.campsite_id ∉ ids) :
    filterAvail cd ct ids = [] := by
  unfold filterAvail
  rw [List.filterMap_eq_nil_iff]
  intro q hq
  by_cases h1 : (q.2 != "Available") = true
  · rw [if_pos h1]
  · rw [if_neg h1]
    by_cases h2 : (match ct with | some t => t != cd.campsite_type | none => false) = true
    · rw [if_pos h2]
    · rw [if_neg h2]
      have h3 : (ids.length > 0 && !(ids.contains cd.campsite_id)) = true := by
        rw [Bool.and_eq_true]
        refine ⟨decide_eq_true hlen, ?_⟩
        rw [show ids.contains cd.campsite_id = decide (cd.campsite_id ∈ ids) from
          List.elem_eq_mem _ _, decide_eq_false hnot]
        rfl
      rw [if_pos h3]

/-- **C8**: the aggregator merges monthly records in fetch order: the
aggregated date list of a site equals the concatenation, month by month,
of the Available dates that site's entries carry in each monthly record
(no filters supplied, as in the driver). -/
theorem claim_C8_month_merge (months : List MonthRecord) (cid : Nat)
    (h : months.any (fun m => m.any (fun q => q.1 == cid)) = true) :
    lookupSite (get_park_information months none []) cid =
      some ((months.map (fun m =>
        ((m.filter (fun q => q.1 == cid)).map
          (fun q => availableDates q.2)).flatten)).flatten) := by
  rw [get_park_information_lookup, if_pos h]
  rfl

theorem claim_C8_witness :
    lookupSite (get_park_information
      [[(7, ⟨7, "STANDARD", [(100, "Available"), (101, "Reserved")]⟩)],
       [(7, ⟨7, "STANDARD", [(131, "Available")]⟩)]] none []) 7 = some [100, 131] := by
  rw [claim_C8_month_merge _ 7 (by decide)]
  rfl

/-- **C10**: the aggregator inserts each site's key before applying the
per-date filters, so a site wholly excluded by the site-id allow-list still
appears in the mapping with an empty date list, and the site counter's
`maximum` — which is just the size of that mapping — counts it. -/
theorem claim_C10_filters_inside_loop (months : List MonthRecord) (ct : Option String)
    (ids : List Nat) (cid : Nat)
    (hocc : months.any (fun m => m.any (fun q => q.1 == cid)) = true) :
    (lookupSite (get_park_information months ct ids) cid).isSome = true ∧
    1 ≤ (get_park_information months ct ids).length ∧
    ((0 < ids.length ∧ cid ∉ ids) →
      (∀ m ∈ months, ∀ q ∈ m, q.1 = cid → q.2.campsite_id = cid) →
      lookupSite (get_park_information months ct ids) cid = some []) ∧
    ∀ s e n, (get_num_available_sites (get_park_information months ct ids) s e n).2.1 =
      (get_park_information months ct ids).length := by
  have hlook := get_park_information_lookup months ct ids cid
  rw [if_pos hocc] at hlook
  refine ⟨by rw [hlook]; rfl, ?_, ?_, fun s e n => rfl⟩
  · have hne : get_park_information months ct ids ≠ [] := by
      intro h0
      rw [h0] at hlook
      exact Option.noConfusion hlook
    have := List.length_pos.mpr hne
    omega
  · intro hids hcamp
    rw [hlook]
    refine congrArg some ?_
    rw [List.flatten_eq_nil_iff]
    intro l hl
    rw [List.mem_map] at hl
    obtain ⟨m, hm, rfl⟩ := hl
    unfold recordAvail
    rw [List.flatten_eq_nil_iff]
    intro l' hl'
    rw [List.mem_map] at hl'
    obtain ⟨q, hq, rfl⟩ := hl'
    rw [List.mem_filter] at hq
    obtain ⟨hqm, hqk⟩ := hq
    have hkey : q.1 = cid := by simpa using hqk
    have hcid : q.2.campsite_id = cid := hcamp m hm q hqm hkey
    exact filterAvail_excluded q.2 ct hids.1 (by rw [hcid]; exact hids.2)

theorem claim_C10_witness :
    lookupSite (get_park_information [[(5, ⟨5, "T", [(100, "Available")]⟩)]] none [9]) 5 =
      some [] ∧
    (get_num_available_sites
        (get_park_information [[(5, ⟨5, "T", [(100, "Available")]⟩)]] none [9])
        0 3 none).2.1 =
      (get_park_information [[(5, ⟨5, "T", [(100, "Available")]⟩)]] none [9]).length := by
  refine ⟨(claim_C10_filters_inside_loop [[(5, ⟨5, "T", [(100, "Available")]⟩)]]
      none [9] 5 (by decide)).2.2.1 (by decide) ?_, 
    (claim_C10_filters_inside_loop [[(5, ⟨5, "T", [(100, "Available")]⟩)]]
      none [9] 5 (by decide)).2.2.2 0 3 none⟩
  decide

/-! ## Claim C9: the output-building step -/

instance : IsTrans SiteData siteKeyLe := by
  constructor
  intro a b c hab hbc
  rcases hab with h1 | ⟨h1, h2⟩ <;> rcases hbc with h3 | ⟨h3, h4⟩
  · exact Or.inl (lt_trans h1 h3)
  · exact Or.inl (h3 ▸ h1)
  · exact Or.inl (h1 ▸ h3)
  · exact Or.inr ⟨h1.trans h3, le_trans h2 h4⟩

instance : IsTotal SiteData siteKeyLe := by
  constructor
  intro a b
  rcases lt_trichotomy (strLower a.loop) (strLower b.loop) with h | h | h
  · exact Or.inl (Or.inl h)
  · rcases le_total a.site b.site with hs | hs
    · exact Or.inl (Or.inr ⟨h, hs⟩)
    · exact Or.inr (Or.inr ⟨h.symm, hs⟩)
  · exact Or.inr (Or.inl h)

/-- **C9** (counterexample): the outer per-park listing is NOT sorted by
park name — `getOutputData` keeps the input (dict) order; with parks named
`"B"` then `"A"` the output order stays `["B", "A"]`. -/
theorem claim_C9_counterexample :
    (getOutputData [("2", ⟨0, 0, [], "B", []⟩), ("1", ⟨0, 0, [], "A", []⟩)]).map
        (fun c => c.park_name) = ["B", "A"] ∧
    ¬ List.Sorted (· ≤ ·) ((getOutputData [("2", ⟨0, 0, [], "B", []⟩),
        ("1", ⟨0, 0, [], "A", []⟩)]).map (fun c => c.park_name)) := by
  have h1 : (getOutputData [("2", ⟨0, 0, [], "B", []⟩), ("1", ⟨0, 0, [], "A", []⟩)]).map
      (fun c => c.park_name) = ["B", "A"] := by decide
  refine ⟨h1, ?_⟩
  rw [h1]
  intro hs
  have hba : ("B" : String) ≤ "A" :=
    List.rel_of_sorted_cons hs _ (List.mem_singleton.mpr rfl)
  rw [String.le_iff_toList_le] at hba
  exact absurd hba (by decide)

/-- **C9** (amended): each park's per-site listing is sorted by the key
(loop name lowercased, then site label); the outer per-park listing is
emitted in input order, not sorted by park name (sorting it is left as a
source comment). -/
theorem claim_C9_inner_sorted_outer_input_order (input : List (String × ParkInfo)) :
    (getOutputData input).map (fun c => c.park_id) = input.map Prod.fst ∧
    (getOutputData input).map (fun c => c.park_name) = input.map (fun q => q.2.park_name) ∧
    ∀ c ∈ getOutputData input,
      List.Sorted siteKeyLe c.available_sites ∧
      ∃ q ∈ input, c.park_name = q.2.park_name ∧
        c.available_sites.Perm (q.2.available_dates_by_site_id.map
          (fun sq => buildSiteData q.2.info_by_site_id sq.1)) := by
  refine ⟨?_, ?_, ?_⟩
  · unfold getOutputData
    rw [List.map_map]
    rfl
  · unfold getOutputData
    rw [List.map_map]
    rfl
  · intro c hc
    unfold getOutputData at hc
    rw [List.mem_map] at hc
    obtain ⟨q, hq, rfl⟩ := hc
    exact ⟨List.sorted_insertionSort siteKeyLe _, q, hq, rfl,
      List.perm_insertionSort siteKeyLe _⟩

theorem claim_C9_witness :
    List.Sorted siteKeyLe
      ([⟨3, "s3", "loop a", "na", "na", "na"⟩,
        ⟨4, "s4", "Loop B", "na", "na", "na"⟩] : List SiteData) := by
  have h := (claim_C9_inner_sorted_outer_input_order
    [("1", ⟨1, 1, [(4, [(10, 12)]), (3, [(10, 12)])], "A",
      [(4, ⟨some "s4", some "Loop B", none, none, none⟩),
       (3, ⟨some "s3", some "loop a", none, none, none⟩)]⟩)]).2.2
    ⟨"1", "A", 1, 1, [⟨3, "s3", "loop a", "na", "na", "na"⟩,
      ⟨4, "s4", "Loop B", "na", "na", "na"⟩]⟩ (by decide)
  exact h.1

end RecGov
